import Mathlib

/-!
Verification of the tool engine of the noundry-studio pixel editor
(`src/tools/tools.ts`): flood fill, line/rectangle/ellipse rasterization,
move, and eyedropper, over a shallow embedding of the canvas surface.

The canvas is embedded as a total pixel function together with its
dimensions.  Pixel colors are an arbitrary type with decidable equality
(the source compares `Colord` values for equality and never inspects
channels, except the eyedropper, which gets its own RGBA model below).
The recursive `floodFill` of the source is embedded fuel-indexed:
`none` means the recursion did not complete within the given fuel, and
termination of the source program is `∃ fuel, result = some _`.
-/

set_option maxHeartbeats 1000000
set_option maxRecDepth 16384

/-- An integer pixel coordinate, as in `Point` of `src/utils/canvas.ts`. -/
structure Point where
  x : Int
  y : Int
  deriving DecidableEq, Repr

/-- A raster surface: a fixed-size canvas with a total pixel read-back
function.  `width`/`height` mirror `canvas.width`/`canvas.height`. -/
structure Surface (C : Type) where
  width : Int
  height : Int
  pix : Point → C

/-- `inCanvas` from tools.ts lines 170-171:
`point.x >= 0 && point.x < ctx.canvas.width && point.y >= 0 && point.y < ctx.canvas.height`. -/
def inCanvas {C : Type} (p : Point) (s : Surface C) : Prop :=
  0 ≤ p.x ∧ p.x < s.width ∧ 0 ≤ p.y ∧ p.y < s.height

instance {C : Type} (p : Point) (s : Surface C) : Decidable (inCanvas p s) := by
  unfold inCanvas; exact inferInstance

/-- Modelled from the spec: `getPixelColor` lives in `src/utils/colors.ts`,
which is not among the sources; per spec §4.8 step 2 it reads the current
color at a point of the surface. -/
def getPixelColor {C : Type} (p : Point) (s : Surface C) : C := s.pix p

/-- Modelled from the spec: `erasePixel` and `paintPixel` live in
`src/utils/canvas.ts`, which is not among the sources.  Spec §4.8 step 4:
erase then paint the pixel with the foreground color; erasing first makes
the alpha composite come out as exactly the foreground color, so the pair
acts as a single overwrite of one pixel with the foreground color. -/
def erasePaintPixel {C : Type} (p : Point) (fgColor : C) (s : Surface C) : Surface C :=
  { s with pix := fun q => if q = p then fgColor else s.pix q }

/-- The early-return test of floodFill (tools.ts line 157):
`searchColor && !color.isEqual(searchColor)`. -/
def searchMismatch {C : Type} [DecidableEq C] : Option C → C → Bool
  | none, _ => false
  | some sc, c => decide (c ≠ sc)

/-- Fuel-indexed embedding of `floodFill` (tools.ts lines 150-168).
Besides the final surface, the result carries a ghost trace listing, for
every call that reaches the paint step, the painted point together with the
`searchColor` argument that call received (the source computes no such
trace; it only makes the visited set and the compared colors observable).
`none` means the recursion did not finish within `fuel` nested calls. -/
def floodFillFuel {C : Type} [DecidableEq C] :
    Nat → C → Surface C → Point → Option C → Option (Surface C × List (Point × Option C))
  | 0, _, _, _, _ => none
  | fuel + 1, fgColor, s, point, searchColor =>
    if inCanvas point s then
      let color := getPixelColor point s
      if searchMismatch searchColor color then
        some (s, [])
      else
        let painted := erasePaintPixel point fgColor s
        (floodFillFuel fuel fgColor painted ⟨point.x - 1, point.y⟩ (some color)).bind fun r1 =>
        (floodFillFuel fuel fgColor r1.1 ⟨point.x + 1, point.y⟩ (some color)).bind fun r2 =>
        (floodFillFuel fuel fgColor r2.1 ⟨point.x, point.y - 1⟩ (some color)).bind fun r3 =>
        (floodFillFuel fuel fgColor r3.1 ⟨point.x, point.y + 1⟩ (some color)).map fun r4 =>
        (r4.1, (point, searchColor) :: (r1.2 ++ r2.2 ++ r3.2 ++ r4.2))
    else
      some (s, [])

/-- The Bucket tool (tools.ts lines 136-148): reads the foreground color,
seeds the fill at the last point of the sequence, and passes no search
color to the top-level `floodFill` call. -/
def bucketUse {C : Type} [DecidableEq C] (fuel : Nat) (fgColor : C) (points : List Point)
    (canvas : Surface C) : Option (Surface C × List (Point × Option C)) :=
  floodFillFuel fuel fgColor canvas (points.getLastD ⟨0, 0⟩) none

lemma floodFillFuel_succ {C : Type} [DecidableEq C] (fuel : Nat) (fgColor : C) (s : Surface C)
    (point : Point) (searchColor : Option C) :
    floodFillFuel (fuel + 1) fgColor s point searchColor =
      if inCanvas point s then
        if searchMismatch searchColor (getPixelColor point s) then
          some (s, [])
        else
          (floodFillFuel fuel fgColor (erasePaintPixel point fgColor s) ⟨point.x - 1, point.y⟩
              (some (getPixelColor point s))).bind fun r1 =>
          (floodFillFuel fuel fgColor r1.1 ⟨point.x + 1, point.y⟩
              (some (getPixelColor point s))).bind fun r2 =>
          (floodFillFuel fuel fgColor r2.1 ⟨point.x, point.y - 1⟩
              (some (getPixelColor point s))).bind fun r3 =>
          (floodFillFuel fuel fgColor r3.1 ⟨point.x, point.y + 1⟩
              (some (getPixelColor point s))).map fun r4 =>
          (r4.1, (point, searchColor) :: (r1.2 ++ r2.2 ++ r3.2 ++ r4.2))
      else
        some (s, []) := rfl

/-- A 2×1 surface whose two pixels already hold the foreground color `0`. -/
def twoPixels : Surface (Fin 2) := { width := 2, height := 1, pix := fun _ => 0 }

/-- On a 2×1 all-`0` surface, filling with foreground `0` never finishes:
the two pixels keep matching the propagated seed color after being painted,
so the recursion bounces between them until any fuel bound is exhausted. -/
lemma floodFill_allZero_two_none :
    ∀ (fuel : Nat) (pixfn : Point → Fin 2), (∀ q, pixfn q = 0) →
      ∀ p : Point, (p = ⟨0, 0⟩ ∨ p = ⟨1, 0⟩) →
      ∀ srch : Option (Fin 2), (srch = none ∨ srch = some 0) →
      floodFillFuel fuel 0 { width := 2, height := 1, pix := pixfn } p srch = none := by
  intro fuel
  induction fuel with
  | zero => intro _ _ _ _ _ _; rfl
  | succ f IH =>
    intro pixfn hall p hp srch hs
    have hin : inCanvas p ({ width := 2, height := 1, pix := pixfn } : Surface (Fin 2)) := by
      rcases hp with h | h <;> subst h <;> exact ⟨by norm_num, by norm_num, le_refl 0, by norm_num⟩
    have hcol : getPixelColor p ({ width := 2, height := 1, pix := pixfn } : Surface (Fin 2)) = 0 :=
      hall p
    have hmis : searchMismatch srch
        (getPixelColor p ({ width := 2, height := 1, pix := pixfn } : Surface (Fin 2))) = false := by
      rcases hs with h | h <;> subst h <;> simp [searchMismatch, hcol]
    have hall' : ∀ q, (if q = p then (0 : Fin 2) else pixfn q) = 0 := by
      intro q; by_cases h : q = p <;> simp [h, hall]
    rw [floodFillFuel_succ, if_pos hin]
    simp only [hmis, if_false, Bool.false_eq_true]
    rcases hp with hp | hp <;> subst hp
    · -- seed (0,0): the left neighbor is out of canvas, the right neighbor diverges
      cases f with
      | zero => rfl
      | succ g =>
        have h1 : floodFillFuel (g + 1) (0 : Fin 2)
            (erasePaintPixel ⟨0, 0⟩ 0 { width := 2, height := 1, pix := pixfn })
            ⟨(0 : Int) - 1, 0⟩
            (some (getPixelColor ⟨0, 0⟩
              ({ width := 2, height := 1, pix := pixfn } : Surface (Fin 2)))) =
            some (erasePaintPixel ⟨0, 0⟩ 0 { width := 2, height := 1, pix := pixfn }, []) := by
          rw [floodFillFuel_succ, if_neg]
          intro hcon
          exact absurd hcon.1 (by norm_num)
        have h2 : floodFillFuel (g + 1) (0 : Fin 2)
            (erasePaintPixel ⟨0, 0⟩ 0 { width := 2, height := 1, pix := pixfn })
            ⟨(0 : Int) + 1, 0⟩
            (some (getPixelColor ⟨0, 0⟩
              ({ width := 2, height := 1, pix := pixfn } : Surface (Fin 2)))) = none := by
          have := IH (fun q => if q = ⟨0, 0⟩ then (0 : Fin 2) else pixfn q) hall'
            ⟨1, 0⟩ (Or.inr rfl) (some (0 : Fin 2)) (Or.inr rfl)
          simpa [erasePaintPixel, hcol] using this
        simp only [erasePaintPixel] at h1 h2 ⊢
        rw [h1]
        simp only [Option.some_bind]
        rw [h2]
        rfl
    · -- seed (1,0): the left neighbor is (0,0), which diverges
      have h1 : floodFillFuel f (0 : Fin 2)
          (erasePaintPixel ⟨1, 0⟩ 0 { width := 2, height := 1, pix := pixfn })
          ⟨(1 : Int) - 1, 0⟩
          (some (getPixelColor ⟨1, 0⟩
            ({ width := 2, height := 1, pix := pixfn } : Surface (Fin 2)))) = none := by
        have := IH (fun q => if q = ⟨1, 0⟩ then (0 : Fin 2) else pixfn q)
          (by intro q; by_cases h : q = (⟨1, 0⟩ : Point) <;> simp [h, hall])
          ⟨0, 0⟩ (Or.inl rfl) (some (0 : Fin 2)) (Or.inr rfl)
        simpa [erasePaintPixel, hcol] using this
      simp only [erasePaintPixel] at h1 ⊢
      rw [h1]
      rfl

/-- C1: refuted on the code — on a 2×1 surface whose seeded connected
region is already entirely the foreground color, the Bucket flood fill does
not terminate: for every fuel bound the recursion is still running, because
painting a pixel with the (identical) foreground color leaves it matching
the propagated seed color, so the two pixels keep re-entering each other.
The claim (and spec §8 "Flood fill idempotence") says this terminates. -/
theorem c1_bucket_same_color_fill_diverges :
    ∀ fuel : Nat, bucketUse fuel (0 : Fin 2) [⟨0, 0⟩] twoPixels = none := by
  intro fuel
  unfold bucketUse twoPixels
  simpa using floodFill_allZero_two_none fuel (fun _ => 0) (fun _ => rfl)
    ⟨0, 0⟩ (Or.inl rfl) none (Or.inl rfl)

/-- `t` is reachable from `s` by repainting some in-canvas pixels with the
foreground color: same dimensions, and every pixel is either untouched or
holds the foreground color.  Every completed flood fill produces such a
surface. -/
def PixFrom {C : Type} (fgColor : C) (s t : Surface C) : Prop :=
  t.width = s.width ∧ t.height = s.height ∧
    ∀ q, t.pix q = s.pix q ∨ (inCanvas q s ∧ t.pix q = fgColor)

lemma inCanvas_of_dims {C D : Type} (p : Point) (s : Surface C) (t : Surface D)
    (hw : t.width = s.width) (hh : t.height = s.height) : inCanvas p t ↔ inCanvas p s := by
  unfold inCanvas; rw [hw, hh]

lemma pixFrom_refl {C : Type} (fgColor : C) (s : Surface C) : PixFrom fgColor s s :=
  ⟨rfl, rfl, fun _ => Or.inl rfl⟩

lemma pixFrom_trans {C : Type} {fgColor : C} {s t u : Surface C}
    (hst : PixFrom fgColor s t) (htu : PixFrom fgColor t u) : PixFrom fgColor s u := by
  obtain ⟨hw1, hh1, hp1⟩ := hst
  obtain ⟨hw2, hh2, hp2⟩ := htu
  refine ⟨hw2.trans hw1, hh2.trans hh1, fun q => ?_⟩
  rcases hp2 q with h | ⟨hin, h⟩
  · rcases hp1 q with h' | ⟨hin', h'⟩
    · exact Or.inl (h.trans h')
    · exact Or.inr ⟨hin', h.trans h'⟩
  · exact Or.inr ⟨(inCanvas_of_dims q s t hw1 hh1).mp hin, h⟩

lemma pixFrom_paint {C : Type} {fgColor : C} {s : Surface C} {p : Point} (hp : inCanvas p s) :
    PixFrom fgColor s (erasePaintPixel p fgColor s) := by
  refine ⟨rfl, rfl, fun q => ?_⟩
  by_cases h : q = p
  · subst h; exact Or.inr ⟨hp, by simp [erasePaintPixel]⟩
  · exact Or.inl (by simp [erasePaintPixel, h])

/-- A completed flood fill only repaints in-canvas pixels, and only with
the foreground color. -/
lemma floodFillFuel_pixFrom {C : Type} [DecidableEq C] :
    ∀ (fuel : Nat) (fgColor : C) (s : Surface C) (p : Point) (srch : Option C)
      (r : Surface C × List (Point × Option C)),
      floodFillFuel fuel fgColor s p srch = some r → PixFrom fgColor s r.1 := by
  intro fuel
  induction fuel with
  | zero => intro _ _ _ _ _ h; exact absurd h (by simp [floodFillFuel])
  | succ f IH =>
    intro fgColor s p srch r h
    rw [floodFillFuel_succ] at h
    split_ifs at h with h1 h2
    · injection h with h'; subst h'; exact pixFrom_refl fgColor s
    · rw [Option.bind_eq_some] at h
      obtain ⟨r1, hr1, h⟩ := h
      rw [Option.bind_eq_some] at h
      obtain ⟨r2, hr2, h⟩ := h
      rw [Option.bind_eq_some] at h
      obtain ⟨r3, hr3, h⟩ := h
      rw [Option.map_eq_some'] at h
      obtain ⟨r4, hr4, h⟩ := h
      subst h
      exact pixFrom_trans (pixFrom_paint h1)
        (pixFrom_trans (IH _ _ _ _ _ hr1)
          (pixFrom_trans (IH _ _ _ _ _ hr2)
            (pixFrom_trans (IH _ _ _ _ _ hr3) (IH _ _ _ _ r4 hr4))))
    · injection h with h'; subst h'; exact pixFrom_refl fgColor s

/-- Fuel monotonicity: a run that completes within `fuel` completes with
the same result given any more fuel. -/
lemma floodFillFuel_mono {C : Type} [DecidableEq C] :
    ∀ (fuel : Nat) (fgColor : C) (s : Surface C) (p : Point) (srch : Option C)
      (r : Surface C × List (Point × Option C)),
      floodFillFuel fuel fgColor s p srch = some r →
      floodFillFuel (fuel + 1) fgColor s p srch = some r := by
  intro fuel
  induction fuel with
  | zero => intro _ _ _ _ _ h; exact absurd h (by simp [floodFillFuel])
  | succ f IH =>
    intro fgColor s p srch r h
    rw [floodFillFuel_succ] at h
    rw [floodFillFuel_succ]
    split_ifs at h ⊢ with h1 h2
    · exact h
    · rw [Option.bind_eq_some] at h
      obtain ⟨r1, hr1, h⟩ := h
      rw [Option.bind_eq_some] at h
      obtain ⟨r2, hr2, h⟩ := h
      rw [Option.bind_eq_some] at h
      obtain ⟨r3, hr3, h⟩ := h
      rw [Option.map_eq_some'] at h
      obtain ⟨r4, hr4, h⟩ := h
      have h1' := IH _ _ _ _ _ hr1
      have h2' := IH _ _ _ _ _ hr2
      have h3' := IH _ _ _ _ _ hr3
      have h4' := IH _ _ _ _ _ hr4
      rw [h1']
      simp only [Option.some_bind]
      rw [h2']
      simp only [Option.some_bind]
      rw [h3']
      simp only [Option.some_bind]
      rw [h4']
      simp only [Option.map_some']
      rw [h]
    · exact h

lemma floodFillFuel_mono_le {C : Type} [DecidableEq C] (fuel fuel' : Nat) (hle : fuel ≤ fuel')
    {fgColor : C} {s : Surface C} {p : Point} {srch : Option C}
    {r : Surface C × List (Point × Option C)}
    (h : floodFillFuel fuel fgColor s p srch = some r) :
    floodFillFuel fuel' fgColor s p srch = some r := by
  induction fuel' with
  | zero => exact Nat.le_zero.mp hle ▸ h
  | succ f IH =>
    rcases Nat.lt_or_ge fuel (f + 1) with hlt | hge
    · exact floodFillFuel_mono f _ _ _ _ _ (IH (Nat.lt_succ_iff.mp hlt))
    · exact (Nat.le_antisymm hle hge) ▸ h

lemma searchMismatch_false_iff {C : Type} [DecidableEq C] (sc c : C) :
    searchMismatch (some sc) c = false ↔ c = sc := by
  simp [searchMismatch]

/-- Every painting call below a call that received a search color receives
that same search color: the color passed down is the one just read, and the
read color passed the equality check against the incoming search color. -/
lemma floodFillFuel_search {C : Type} [DecidableEq C] :
    ∀ (fuel : Nat) (fgColor : C) (s : Surface C) (p : Point) (sc : C)
      (r : Surface C × List (Point × Option C)),
      floodFillFuel fuel fgColor s p (some sc) = some r →
      ∀ e ∈ r.2, e.2 = some sc := by
  intro fuel
  induction fuel with
  | zero => intro _ _ _ _ _ h; exact absurd h (by simp [floodFillFuel])
  | succ f IH =>
    intro fgColor s p sc r h
    rw [floodFillFuel_succ] at h
    split_ifs at h with h1 h2
    · injection h with h'; subst h'; intro e he; exact absurd he (List.not_mem_nil e)
    · have hc : getPixelColor p s = sc :=
        (searchMismatch_false_iff sc (getPixelColor p s)).mp (Bool.not_eq_true _ ▸ h2)
      rw [Option.bind_eq_some] at h
      obtain ⟨r1, hr1, h⟩ := h
      rw [Option.bind_eq_some] at h
      obtain ⟨r2, hr2, h⟩ := h
      rw [Option.bind_eq_some] at h
      obtain ⟨r3, hr3, h⟩ := h
      rw [Option.map_eq_some'] at h
      obtain ⟨r4, hr4, h⟩ := h
      subst h
      rw [hc] at hr1 hr2 hr3 hr4
      intro e he
      simp only [List.mem_cons, List.mem_append] at he
      rcases he with he | ((he | he) | he) | he
      · rw [he]
      · exact IH _ _ _ _ _ hr1 e he
      · exact IH _ _ _ _ _ hr2 e he
      · exact IH _ _ _ _ _ hr3 e he
      · exact IH _ _ _ _ _ hr4 e he
    · injection h with h'; subst h'; intro e he; exact absurd he (List.not_mem_nil e)

/-- C4: the Bucket tool's top-level call passes no search color; whenever
the fill completes, the in-canvas seed pixel (the last point of the
sequence) ends up holding the foreground color, whatever its original
color was; and every deeper painting call compares against the color
originally read at the seed pixel (of the pre-fill surface), never a
re-sampled or newly painted one. -/
theorem c4_bucket_no_seed_and_fixed_search :
    (∀ (C : Type) [DecidableEq C] (fuel : Nat) (fgColor : C) (points : List Point)
        (canvas : Surface C),
        bucketUse fuel fgColor points canvas =
          floodFillFuel fuel fgColor canvas (points.getLastD ⟨0, 0⟩) none) ∧
    (∀ (C : Type) [DecidableEq C] (fuel : Nat) (fgColor : C) (s : Surface C) (seed : Point),
        inCanvas seed s →
        ∀ r ∈ floodFillFuel fuel fgColor s seed none, r.1.pix seed = fgColor) ∧
    (∀ (C : Type) [DecidableEq C] (fuel : Nat) (fgColor : C) (s : Surface C) (seed : Point),
        ∀ r ∈ floodFillFuel fuel fgColor s seed none,
          ∀ e ∈ r.2, e.2 = none ∨ e.2 = some (getPixelColor seed s)) := by
  refine ⟨fun C _ fuel fgColor points canvas => rfl, ?_, ?_⟩
  · intro C _ fuel fgColor s seed hseed r hr
    rw [Option.mem_def] at hr
    cases fuel with
    | zero => exact Option.noConfusion hr
    | succ f =>
      rw [floodFillFuel_succ, if_pos hseed, if_neg (by simp [searchMismatch])] at hr
      rw [Option.bind_eq_some] at hr
      obtain ⟨r1, hr1, hr⟩ := hr
      rw [Option.bind_eq_some] at hr
      obtain ⟨r2, hr2, hr⟩ := hr
      rw [Option.bind_eq_some] at hr
      obtain ⟨r3, hr3, hr⟩ := hr
      rw [Option.map_eq_some'] at hr
      obtain ⟨r4, hr4, hr⟩ := hr
      subst hr
      have hfrom : PixFrom fgColor (erasePaintPixel seed fgColor s) r4.1 :=
        pixFrom_trans (floodFillFuel_pixFrom _ _ _ _ _ _ hr1)
          (pixFrom_trans (floodFillFuel_pixFrom _ _ _ _ _ _ hr2)
            (pixFrom_trans (floodFillFuel_pixFrom _ _ _ _ _ _ hr3)
              (floodFillFuel_pixFrom _ _ _ _ _ _ hr4)))
      have hpaint : (erasePaintPixel seed fgColor s).pix seed = fgColor := by
        simp [erasePaintPixel]
      rcases hfrom.2.2 seed with h | ⟨_, h⟩
      · exact h.trans hpaint
      · exact h
  · intro C _ fuel fgColor s seed r hr e he
    rw [Option.mem_def] at hr
    cases fuel with
    | zero => exact Option.noConfusion hr
    | succ f =>
      rw [floodFillFuel_succ] at hr
      split_ifs at hr with h1 h2
      · exact absurd h2 (by simp [searchMismatch])
      · rw [Option.bind_eq_some] at hr
        obtain ⟨r1, hr1, hr⟩ := hr
        rw [Option.bind_eq_some] at hr
        obtain ⟨r2, hr2, hr⟩ := hr
        rw [Option.bind_eq_some] at hr
        obtain ⟨r3, hr3, hr⟩ := hr
        rw [Option.map_eq_some'] at hr
        obtain ⟨r4, hr4, hr⟩ := hr
        subst hr
        simp only [List.mem_cons, List.mem_append] at he
        rcases he with he | ((he | he) | he) | he
        · exact Or.inl (by rw [he])
        · exact Or.inr (floodFillFuel_search _ _ _ _ _ _ hr1 e he)
        · exact Or.inr (floodFillFuel_search _ _ _ _ _ _ hr2 e he)
        · exact Or.inr (floodFillFuel_search _ _ _ _ _ _ hr3 e he)
        · exact Or.inr (floodFillFuel_search _ _ _ _ _ _ hr4 e he)
      · injection hr with hr; subst hr; exact absurd he (List.not_mem_nil e)

/-- A 1×1 surface holding color `0`. -/
def oneCell : Surface (Fin 2) := { width := 1, height := 1, pix := fun _ => 0 }

/-- Witness for C4 at a concrete input: a 1×1 surface with a pixel of
color 0 bucket-filled with color 1. -/
theorem c4_bucket_no_seed_and_fixed_search_witness :
    (bucketUse 2 (1 : Fin 2) [⟨0, 0⟩] oneCell =
      floodFillFuel 2 (1 : Fin 2) oneCell ⟨0, 0⟩ none) ∧
    inCanvas (⟨0, 0⟩ : Point) oneCell ∧
    (∀ r ∈ floodFillFuel 2 (1 : Fin 2) oneCell ⟨0, 0⟩ none, r.1.pix ⟨0, 0⟩ = 1) ∧
    (∀ r ∈ floodFillFuel 2 (1 : Fin 2) oneCell ⟨0, 0⟩ none,
      ∀ e ∈ r.2, e.2 = none ∨ e.2 = some (getPixelColor ⟨0, 0⟩ oneCell)) :=
  ⟨c4_bucket_no_seed_and_fixed_search.1 (Fin 2) 2 1 [⟨0, 0⟩] oneCell,
    by decide,
    c4_bucket_no_seed_and_fixed_search.2.1 (Fin 2) 2 1 oneCell ⟨0, 0⟩ (by decide),
    c4_bucket_no_seed_and_fixed_search.2.2 (Fin 2) 2 1 oneCell ⟨0, 0⟩⟩

lemma Point.ext' (p q : Point) (hx : p.x = q.x) (hy : p.y = q.y) : p = q := by
  cases p; cases q; simp_all

/-- The finite set of in-canvas points of a surface. -/
def gridFinset {C : Type} (s : Surface C) : Finset Point :=
  (Finset.Icc (0 : Int) (s.width - 1) ×ˢ Finset.Icc (0 : Int) (s.height - 1)).map
    ⟨fun ab => ⟨ab.1, ab.2⟩, fun a b hab => by
      have hx : a.1 = b.1 := congrArg Point.x hab
      have hy : a.2 = b.2 := congrArg Point.y hab
      exact Prod.ext hx hy⟩

lemma mem_gridFinset {C : Type} (q : Point) (s : Surface C) :
    q ∈ gridFinset s ↔ inCanvas q s := by
  unfold gridFinset inCanvas
  simp only [Finset.mem_map, Finset.mem_product, Finset.mem_Icc, Function.Embedding.coeFn_mk]
  constructor
  · rintro ⟨⟨a, b⟩, ⟨⟨ha0, ha1⟩, hb0, hb1⟩, rfl⟩
    exact ⟨ha0, by show a < s.width; omega, hb0, by show b < s.height; omega⟩
  · rintro ⟨h1, h2, h3, h4⟩
    exact ⟨(q.x, q.y), ⟨⟨h1, by omega⟩, ⟨h3, by omega⟩⟩, rfl⟩

lemma gridFinset_congr {C D : Type} (s : Surface C) (t : Surface D)
    (hw : t.width = s.width) (hh : t.height = s.height) : gridFinset t = gridFinset s := by
  unfold gridFinset; rw [hw, hh]

/-- The number of in-canvas pixels of `s` whose color is `sc`: the
termination measure of a flood fill whose foreground differs from `sc`. -/
def matchCount {C : Type} [DecidableEq C] (s : Surface C) (sc : C) : Nat :=
  ((gridFinset s).filter (fun q => s.pix q = sc)).card

lemma matchCount_mono {C : Type} [DecidableEq C] {fgColor : C} {s t : Surface C} {sc : C}
    (hfrom : PixFrom fgColor s t) (hne : fgColor ≠ sc) : matchCount t sc ≤ matchCount s sc := by
  obtain ⟨hw, hh, hp⟩ := hfrom
  apply Finset.card_le_card
  intro q hq
  rw [Finset.mem_filter] at hq ⊢
  rw [gridFinset_congr s t hw hh] at hq
  refine ⟨hq.1, ?_⟩
  rcases hp q with h | ⟨_, h⟩
  · exact h ▸ hq.2
  · exact absurd (h ▸ hq.2) hne

lemma matchCount_paint {C : Type} [DecidableEq C] {s : Surface C} {p : Point} {fgColor sc : C}
    (hp : inCanvas p s) (hpc : s.pix p = sc) (hne : fgColor ≠ sc) :
    matchCount (erasePaintPixel p fgColor s) sc = matchCount s sc - 1 ∧ 1 ≤ matchCount s sc := by
  have hmem : p ∈ (gridFinset s).filter (fun q => s.pix q = sc) :=
    Finset.mem_filter.mpr ⟨(mem_gridFinset p s).mpr hp, hpc⟩
  have hset : (gridFinset (erasePaintPixel p fgColor s)).filter
      (fun q => (erasePaintPixel p fgColor s).pix q = sc) =
      ((gridFinset s).filter (fun q => s.pix q = sc)).erase p := by
    ext q
    rw [Finset.mem_erase, Finset.mem_filter, Finset.mem_filter,
      gridFinset_congr s (erasePaintPixel p fgColor s) rfl rfl]
    constructor
    · rintro ⟨hq1, hq2⟩
      simp only [erasePaintPixel] at hq2
      by_cases h : q = p
      · rw [if_pos h] at hq2; exact absurd hq2 hne
      · rw [if_neg h] at hq2; exact ⟨h, hq1, hq2⟩
    · rintro ⟨hqp, hq1, hq2⟩
      refine ⟨hq1, ?_⟩
      simp only [erasePaintPixel]
      rw [if_neg hqp]; exact hq2
  constructor
  · unfold matchCount
    rw [hset, Finset.card_erase_of_mem hmem]
  · exact Finset.card_pos.mpr ⟨p, hmem⟩

/-- Progress: when the foreground color differs from the search color, fuel
one more than the number of pixels still matching the search color is
enough for the fill to complete. -/
lemma floodFillFuel_progress {C : Type} [DecidableEq C] {fgColor sc : C} (hne : fgColor ≠ sc) :
    ∀ (n : Nat) (s : Surface C) (p : Point), matchCount s sc ≤ n →
      ∃ r, floodFillFuel (n + 1) fgColor s p (some sc) = some r := by
  intro n
  induction n with
  | zero =>
    intro s p hcount
    rw [floodFillFuel_succ]
    by_cases h1 : inCanvas p s
    · rw [if_pos h1]
      have hmm : searchMismatch (some sc) (getPixelColor p s) = true := by
        rcases Bool.eq_false_or_eq_true (searchMismatch (some sc) (getPixelColor p s)) with ht | hf
        · exact ht
        · exfalso
          have hpc : s.pix p = sc := (searchMismatch_false_iff sc (getPixelColor p s)).mp hf
          have hmem : p ∈ (gridFinset s).filter (fun q => s.pix q = sc) :=
            Finset.mem_filter.mpr ⟨(mem_gridFinset p s).mpr h1, hpc⟩
          have hpos : 0 < matchCount s sc := Finset.card_pos.mpr ⟨p, hmem⟩
          omega
      rw [if_pos hmm]
      exact ⟨(s, []), rfl⟩
    · rw [if_neg h1]
      exact ⟨(s, []), rfl⟩
  | succ n IH =>
    intro s p hcount
    rw [floodFillFuel_succ]
    by_cases h1 : inCanvas p s
    · rw [if_pos h1]
      by_cases h2 : searchMismatch (some sc) (getPixelColor p s) = true
      · rw [if_pos h2]
        exact ⟨(s, []), rfl⟩
      · rw [if_neg h2]
        have h2f : searchMismatch (some sc) (getPixelColor p s) = false := by
          rcases Bool.eq_false_or_eq_true (searchMismatch (some sc) (getPixelColor p s)) with
            ht | hf
          · exact absurd ht h2
          · exact hf
        have hpc : s.pix p = sc := (searchMismatch_false_iff sc (getPixelColor p s)).mp h2f
        have hgc : getPixelColor p s = sc := hpc
        obtain ⟨hdec, hpos⟩ := matchCount_paint h1 hpc hne
        have hc1 : matchCount (erasePaintPixel p fgColor s) sc ≤ n := by omega
        obtain ⟨r1, hr1⟩ := IH (erasePaintPixel p fgColor s) ⟨p.x - 1, p.y⟩ hc1
        have hc2 : matchCount r1.1 sc ≤ n :=
          le_trans (matchCount_mono (floodFillFuel_pixFrom _ _ _ _ _ _ hr1) hne) hc1
        obtain ⟨r2, hr2⟩ := IH r1.1 ⟨p.x + 1, p.y⟩ hc2
        have hc3 : matchCount r2.1 sc ≤ n :=
          le_trans (matchCount_mono (floodFillFuel_pixFrom _ _ _ _ _ _ hr2) hne) hc2
        obtain ⟨r3, hr3⟩ := IH r2.1 ⟨p.x, p.y - 1⟩ hc3
        have hc4 : matchCount r3.1 sc ≤ n :=
          le_trans (matchCount_mono (floodFillFuel_pixFrom _ _ _ _ _ _ hr3) hne) hc3
        obtain ⟨r4, hr4⟩ := IH r3.1 ⟨p.x, p.y + 1⟩ hc4
        refine ⟨(r4.1, (p, some sc) :: (r1.2 ++ r2.2 ++ r3.2 ++ r4.2)), ?_⟩
        rw [hgc, hr1]
        simp only [Option.some_bind]
        rw [hr2]
        simp only [Option.some_bind]
        rw [hr3]
        simp only [Option.some_bind]
        rw [hr4]
        simp only [Option.map_some']
    · rw [if_neg h1]
      exact ⟨(s, []), rfl⟩

/-- Bounded 4-connected reachability within the `sc`-colored in-canvas
pixels of `s0`, starting from `seed`: `q` is reachable in `n + 1` steps
when it is the seed, or it is an in-canvas pixel of color `sc` with a
neighbor reachable in `n` steps. -/
def reachB {C : Type} [DecidableEq C] (s0 : Surface C) (sc : C) (seed : Point) :
    Nat → Point → Bool
  | 0, q => decide (q = seed)
  | n + 1, q =>
    decide (q = seed) ||
      (decide (inCanvas q s0) && decide (s0.pix q = sc) &&
        (reachB s0 sc seed n ⟨q.x - 1, q.y⟩ || reachB s0 sc seed n ⟨q.x + 1, q.y⟩ ||
          reachB s0 sc seed n ⟨q.x, q.y - 1⟩ || reachB s0 sc seed n ⟨q.x, q.y + 1⟩))

/-- The 4-connected region of the seed color containing the seed: the
in-canvas pixels of color `sc` reachable from the seed through 4-connected
in-canvas pixels of color `sc` (together with the seed itself). -/
def fillRegion {C : Type} [DecidableEq C] (s0 : Surface C) (sc : C) (seed : Point) : Set Point :=
  { q | inCanvas q s0 ∧ s0.pix q = sc ∧ ∃ n, reachB s0 sc seed n q = true }

/-- `d` is one of the four neighbors floodFill recurses to from `p`. -/
def adj4 (p d : Point) : Prop :=
  d = ⟨p.x - 1, p.y⟩ ∨ d = ⟨p.x + 1, p.y⟩ ∨ d = ⟨p.x, p.y - 1⟩ ∨ d = ⟨p.x, p.y + 1⟩

lemma reach_adj {C : Type} [DecidableEq C] {s0 : Surface C} {sc : C} {seed : Point} {n : Nat}
    {p d : Point} (hn : reachB s0 sc seed n p = true) (hadj : adj4 p d)
    (hin : inCanvas d s0) (hpix : s0.pix d = sc) : reachB s0 sc seed (n + 1) d = true := by
  have hnb : reachB s0 sc seed n ⟨d.x - 1, d.y⟩ = true ∨
      reachB s0 sc seed n ⟨d.x + 1, d.y⟩ = true ∨
      reachB s0 sc seed n ⟨d.x, d.y - 1⟩ = true ∨
      reachB s0 sc seed n ⟨d.x, d.y + 1⟩ = true := by
    rcases hadj with h | h | h | h <;> subst h
    · refine Or.inr (Or.inl ?_)
      show reachB s0 sc seed n ⟨p.x - 1 + 1, p.y⟩ = true
      rw [show (⟨p.x - 1 + 1, p.y⟩ : Point) = p from Point.ext' _ _ (by show p.x - 1 + 1 = p.x; omega) rfl]
      exact hn
    · refine Or.inl ?_
      show reachB s0 sc seed n ⟨p.x + 1 - 1, p.y⟩ = true
      rw [show (⟨p.x + 1 - 1, p.y⟩ : Point) = p from Point.ext' _ _ (by show p.x + 1 - 1 = p.x; omega) rfl]
      exact hn
    · refine Or.inr (Or.inr (Or.inr ?_))
      show reachB s0 sc seed n ⟨p.x, p.y - 1 + 1⟩ = true
      rw [show (⟨p.x, p.y - 1 + 1⟩ : Point) = p from Point.ext' _ _ rfl (by show p.y - 1 + 1 = p.y; omega)]
      exact hn
    · refine Or.inr (Or.inr (Or.inl ?_))
      show reachB s0 sc seed n ⟨p.x, p.y + 1 - 1⟩ = true
      rw [show (⟨p.x, p.y + 1 - 1⟩ : Point) = p from Point.ext' _ _ rfl (by show p.y + 1 - 1 = p.y; omega)]
      exact hn
  rcases hnb with h | h | h | h <;> simp [reachB, hin, hpix, h]

/-- Every point a completed fill (searching for `sc`) paints belongs to the
4-connected `sc`-region, provided the current surface came from `s0` by
repainting with a foreground different from `sc`, and the call point is in
the region whenever it matches. -/
lemma floodFillFuel_region {C : Type} [DecidableEq C] {s0 : Surface C} {sc : C} {seed : Point}
    {fgColor : C} (hne : fgColor ≠ sc) :
    ∀ (fuel : Nat) (s : Surface C) (p : Point) (r : Surface C × List (Point × Option C)),
      PixFrom fgColor s0 s →
      (inCanvas p s0 → s0.pix p = sc → ∃ n, reachB s0 sc seed n p = true) →
      floodFillFuel fuel fgColor s p (some sc) = some r →
      ∀ e ∈ r.2, e.1 ∈ fillRegion s0 sc seed := by
  intro fuel
  induction fuel with
  | zero => intro _ _ _ _ _ h; exact Option.noConfusion h
  | succ f IH =>
    intro s p r hfrom hp h e he
    rw [floodFillFuel_succ] at h
    split_ifs at h with h1 h2
    · injection h with h'; subst h'; exact absurd he (List.not_mem_nil e)
    · have h2f : searchMismatch (some sc) (getPixelColor p s) = false := by
        rcases Bool.eq_false_or_eq_true (searchMismatch (some sc) (getPixelColor p s)) with
          ht | hf
        · exact absurd ht h2
        · exact hf
      have hpc : s.pix p = sc := (searchMismatch_false_iff sc (getPixelColor p s)).mp h2f
      have hgc : getPixelColor p s = sc := hpc
      have h1' : inCanvas p s0 := (inCanvas_of_dims p s0 s hfrom.1 hfrom.2.1).mp h1
      have hpc0 : s0.pix p = sc := by
        rcases hfrom.2.2 p with hh | ⟨_, hh⟩
        · exact hh ▸ hpc
        · exact absurd (hh ▸ hpc) hne
      obtain ⟨n, hn⟩ := hp h1' hpc0
      rw [hgc] at h
      rw [Option.bind_eq_some] at h
      obtain ⟨r1, hr1, h⟩ := h
      rw [Option.bind_eq_some] at h
      obtain ⟨r2, hr2, h⟩ := h
      rw [Option.bind_eq_some] at h
      obtain ⟨r3, hr3, h⟩ := h
      rw [Option.map_eq_some'] at h
      obtain ⟨r4, hr4, h⟩ := h
      subst h
      have hfromP : PixFrom fgColor s0 (erasePaintPixel p fgColor s) :=
        pixFrom_trans hfrom (pixFrom_paint h1)
      have hfrom1 : PixFrom fgColor s0 r1.1 :=
        pixFrom_trans hfromP (floodFillFuel_pixFrom _ _ _ _ _ _ hr1)
      have hfrom2 : PixFrom fgColor s0 r2.1 :=
        pixFrom_trans hfrom1 (floodFillFuel_pixFrom _ _ _ _ _ _ hr2)
      have hfrom3 : PixFrom fgColor s0 r3.1 :=
        pixFrom_trans hfrom2 (floodFillFuel_pixFrom _ _ _ _ _ _ hr3)
      simp only [List.mem_cons, List.mem_append] at he
      rcases he with he | ((he | he) | he) | he
      · rw [he]
        exact ⟨h1', hpc0, n, hn⟩
      · exact IH _ _ _ hfromP
          (fun hinq hpixq => ⟨n + 1, reach_adj hn (Or.inl rfl) hinq hpixq⟩) hr1 e he
      · exact IH _ _ _ hfrom1
          (fun hinq hpixq => ⟨n + 1, reach_adj hn (Or.inr (Or.inl rfl)) hinq hpixq⟩) hr2 e he
      · exact IH _ _ _ hfrom2
          (fun hinq hpixq => ⟨n + 1, reach_adj hn (Or.inr (Or.inr (Or.inl rfl))) hinq hpixq⟩)
          hr3 e he
      · exact IH _ _ _ hfrom3
          (fun hinq hpixq => ⟨n + 1, reach_adj hn (Or.inr (Or.inr (Or.inr rfl))) hinq hpixq⟩)
          hr4 e he
    · injection h with h'; subst h'; exact absurd he (List.not_mem_nil e)

/-- C3: when the foreground color differs from the color at the (in-canvas)
seed pixel, the flood fill terminates — fuel exceeding the count of pixels
still matching the seed color suffices — and the set of pixels visited with
a matching color (the painted trace) lies inside the 4-connected region of
the seed color containing the seed, so its size is bounded by that region's
pixel count. -/
theorem c3_flood_fill_terminates_region_bounded (C : Type) [DecidableEq C] (s : Surface C)
    (seed : Point) (fgColor : C) (hin : inCanvas seed s)
    (hne : fgColor ≠ getPixelColor seed s) :
    ∃ fuel r, floodFillFuel fuel fgColor s seed none = some r ∧
      (∀ q ∈ r.2.map Prod.fst, q ∈ fillRegion s (getPixelColor seed s) seed) ∧
      (r.2.map Prod.fst).toFinset.card ≤ (fillRegion s (getPixelColor seed s) seed).ncard := by
  have hpc : s.pix seed = getPixelColor seed s := rfl
  obtain ⟨hdec, hpos⟩ := matchCount_paint hin hpc hne
  refine ⟨matchCount s (getPixelColor seed s) + 1 + 1, ?_⟩
  rw [floodFillFuel_succ, if_pos hin, if_neg (by simp [searchMismatch])]
  obtain ⟨r1, hr1'⟩ := floodFillFuel_progress hne
    (matchCount (erasePaintPixel seed fgColor s) (getPixelColor seed s))
    (erasePaintPixel seed fgColor s) ⟨seed.x - 1, seed.y⟩ le_rfl
  have hr1 := floodFillFuel_mono_le _ (matchCount s (getPixelColor seed s) + 1) (by omega) hr1'
  have hc2 : matchCount r1.1 (getPixelColor seed s) ≤
      matchCount (erasePaintPixel seed fgColor s) (getPixelColor seed s) :=
    matchCount_mono (floodFillFuel_pixFrom _ _ _ _ _ _ hr1') hne
  obtain ⟨r2, hr2'⟩ := floodFillFuel_progress hne
    (matchCount r1.1 (getPixelColor seed s)) r1.1 ⟨seed.x + 1, seed.y⟩ le_rfl
  have hr2 := floodFillFuel_mono_le _ (matchCount s (getPixelColor seed s) + 1) (by omega) hr2'
  have hc3 : matchCount r2.1 (getPixelColor seed s) ≤ matchCount r1.1 (getPixelColor seed s) :=
    matchCount_mono (floodFillFuel_pixFrom _ _ _ _ _ _ hr2') hne
  obtain ⟨r3, hr3'⟩ := floodFillFuel_progress hne
    (matchCount r2.1 (getPixelColor seed s)) r2.1 ⟨seed.x, seed.y - 1⟩ le_rfl
  have hr3 := floodFillFuel_mono_le _ (matchCount s (getPixelColor seed s) + 1) (by omega) hr3'
  have hc4 : matchCount r3.1 (getPixelColor seed s) ≤ matchCount r2.1 (getPixelColor seed s) :=
    matchCount_mono (floodFillFuel_pixFrom _ _ _ _ _ _ hr3') hne
  obtain ⟨r4, hr4'⟩ := floodFillFuel_progress hne
    (matchCount r3.1 (getPixelColor seed s)) r3.1 ⟨seed.x, seed.y + 1⟩ le_rfl
  have hr4 := floodFillFuel_mono_le _ (matchCount s (getPixelColor seed s) + 1) (by omega) hr4'
  have hreach0 : reachB s (getPixelColor seed s) seed 0 seed = true := by simp [reachB]
  have hmem : ∀ q ∈ (((seed, (none : Option C)) ::
      (r1.2 ++ r2.2 ++ r3.2 ++ r4.2)).map Prod.fst),
      q ∈ fillRegion s (getPixelColor seed s) seed := by
    intro q hq
    rw [List.mem_map] at hq
    obtain ⟨e, he, rfl⟩ := hq
    simp only [List.mem_cons, List.mem_append] at he
    have hfromP : PixFrom fgColor s (erasePaintPixel seed fgColor s) := pixFrom_paint hin
    have hfrom1 : PixFrom fgColor s r1.1 :=
      pixFrom_trans hfromP (floodFillFuel_pixFrom _ _ _ _ _ _ hr1')
    have hfrom2 : PixFrom fgColor s r2.1 :=
      pixFrom_trans hfrom1 (floodFillFuel_pixFrom _ _ _ _ _ _ hr2')
    have hfrom3 : PixFrom fgColor s r3.1 :=
      pixFrom_trans hfrom2 (floodFillFuel_pixFrom _ _ _ _ _ _ hr3')
    rcases he with he | ((he | he) | he) | he
    · rw [he]
      exact ⟨hin, hpc, 0, hreach0⟩
    · exact floodFillFuel_region hne _ _ _ _ hfromP
        (fun hinq hpixq => ⟨1, reach_adj hreach0 (Or.inl rfl) hinq hpixq⟩) hr1' e he
    · exact floodFillFuel_region hne _ _ _ _ hfrom1
        (fun hinq hpixq => ⟨1, reach_adj hreach0 (Or.inr (Or.inl rfl)) hinq hpixq⟩) hr2' e he
    · exact floodFillFuel_region hne _ _ _ _ hfrom2
        (fun hinq hpixq => ⟨1, reach_adj hreach0 (Or.inr (Or.inr (Or.inl rfl))) hinq hpixq⟩)
        hr3' e he
    · exact floodFillFuel_region hne _ _ _ _ hfrom3
        (fun hinq hpixq => ⟨1, reach_adj hreach0 (Or.inr (Or.inr (Or.inr rfl))) hinq hpixq⟩)
        hr4' e he
  refine ⟨(r4.1, (seed, none) :: (r1.2 ++ r2.2 ++ r3.2 ++ r4.2)), ?_, hmem, ?_⟩
  · rw [hr1]
    simp only [Option.some_bind]
    rw [hr2]
    simp only [Option.some_bind]
    rw [hr3]
    simp only [Option.some_bind]
    rw [hr4]
    simp only [Option.map_some']
  · have hfin : (fillRegion s (getPixelColor seed s) seed).Finite := by
      apply Set.Finite.subset (gridFinset s).finite_toSet
      intro q hq
      exact Finset.mem_coe.mpr ((mem_gridFinset q s).mpr hq.1)
    have hsubset : ↑((((seed, (none : Option C)) ::
        (r1.2 ++ r2.2 ++ r3.2 ++ r4.2)).map Prod.fst).toFinset) ⊆
        fillRegion s (getPixelColor seed s) seed := by
      intro q hq
      exact hmem q (by simpa using hq)
    calc ((((seed, (none : Option C)) :: (r1.2 ++ r2.2 ++ r3.2 ++ r4.2)).map
          Prod.fst).toFinset).card
        = (↑((((seed, (none : Option C)) :: (r1.2 ++ r2.2 ++ r3.2 ++ r4.2)).map
            Prod.fst).toFinset) : Set Point).ncard := (Set.ncard_coe_Finset _).symm
      _ ≤ (fillRegion s (getPixelColor seed s) seed).ncard :=
          Set.ncard_le_ncard hsubset hfin

/-- Witness for C3 at a concrete input: a 1×1 surface of color 0, filled
with color 1 from its only pixel. -/
theorem c3_flood_fill_terminates_region_bounded_witness :
    inCanvas (⟨0, 0⟩ : Point) oneCell ∧ (1 : Fin 2) ≠ getPixelColor ⟨0, 0⟩ oneCell ∧
    (∃ fuel r, floodFillFuel fuel (1 : Fin 2) oneCell ⟨0, 0⟩ none = some r ∧
      (∀ q ∈ r.2.map Prod.fst, q ∈ fillRegion oneCell (getPixelColor ⟨0, 0⟩ oneCell) ⟨0, 0⟩) ∧
      (r.2.map Prod.fst).toFinset.card ≤
        (fillRegion oneCell (getPixelColor ⟨0, 0⟩ oneCell) ⟨0, 0⟩).ncard) :=
  ⟨by decide, by decide,
    c3_flood_fill_terminates_region_bounded (Fin 2) oneCell ⟨0, 0⟩ 1 (by decide) (by decide)⟩

lemma surface_ext {C : Type} (s t : Surface C) (hw : s.width = t.width)
    (hh : s.height = t.height) (hp : ∀ q, s.pix q = t.pix q) : s = t := by
  cases s; cases t
  simp only [Surface.mk.injEq]
  exact ⟨hw, hh, funext hp⟩

/-- Recolor a surface pixel-wise. -/
def mapSurface {C D : Type} (g : C → D) (s : Surface C) : Surface D :=
  { width := s.width, height := s.height, pix := fun q => g (s.pix q) }

/-- Flood fill commutes with an injective recoloring of the palette: the
algorithm only ever compares colors for equality. -/
lemma floodFillFuel_map {C D : Type} [DecidableEq C] [DecidableEq D] {g : C → D}
    (hg : Function.Injective g) :
    ∀ (fuel : Nat) (fgColor : C) (s : Surface C) (p : Point) (srch : Option C)
      (r : Surface C × List (Point × Option C)),
      floodFillFuel fuel fgColor s p srch = some r →
      floodFillFuel fuel (g fgColor) (mapSurface g s) p (Option.map g srch) =
        some (mapSurface g r.1, r.2.map (fun e => (e.1, Option.map g e.2))) := by
  intro fuel
  induction fuel with
  | zero => intro _ _ _ _ _ h; exact Option.noConfusion h
  | succ f IH =>
    intro fgColor s p srch r h
    rw [floodFillFuel_succ] at h
    rw [floodFillFuel_succ]
    have hdim : inCanvas p (mapSurface g s) ↔ inCanvas p s :=
      inCanvas_of_dims p s (mapSurface g s) rfl rfl
    by_cases h1 : inCanvas p s
    · rw [if_pos h1] at h
      rw [if_pos (hdim.mpr h1)]
      have hmm : searchMismatch (Option.map g srch) (getPixelColor p (mapSurface g s)) =
          searchMismatch srch (getPixelColor p s) := by
        cases srch with
        | none => rfl
        | some sc =>
          show decide (g (getPixelColor p s) ≠ g sc) = decide (getPixelColor p s ≠ sc)
          simp [hg.ne_iff]
      rw [hmm]
      by_cases h2 : searchMismatch srch (getPixelColor p s) = true
      · rw [if_pos h2] at h
        rw [if_pos h2]
        injection h with h'
        subst h'
        rfl
      · rw [if_neg h2] at h
        rw [if_neg h2]
        rw [Option.bind_eq_some] at h
        obtain ⟨r1, hr1, h⟩ := h
        rw [Option.bind_eq_some] at h
        obtain ⟨r2, hr2, h⟩ := h
        rw [Option.bind_eq_some] at h
        obtain ⟨r3, hr3, h⟩ := h
        rw [Option.map_eq_some'] at h
        obtain ⟨r4, hr4, h⟩ := h
        subst h
        have hpaint : erasePaintPixel p (g fgColor) (mapSurface g s) =
            mapSurface g (erasePaintPixel p fgColor s) :=
          surface_ext (erasePaintPixel p (g fgColor) (mapSurface g s))
            (mapSurface g (erasePaintPixel p fgColor s)) rfl rfl
            (fun q => (apply_ite g (q = p) fgColor (s.pix q)).symm)
        have hIH1 : floodFillFuel f (g fgColor) (mapSurface g (erasePaintPixel p fgColor s))
            ⟨p.x - 1, p.y⟩ (some (g (getPixelColor p s))) =
            some (mapSurface g r1.1, r1.2.map (fun e => (e.1, Option.map g e.2))) := by
          simpa using IH _ _ _ _ _ hr1
        have hIH2 : floodFillFuel f (g fgColor) (mapSurface g r1.1)
            ⟨p.x + 1, p.y⟩ (some (g (getPixelColor p s))) =
            some (mapSurface g r2.1, r2.2.map (fun e => (e.1, Option.map g e.2))) := by
          simpa using IH _ _ _ _ _ hr2
        have hIH3 : floodFillFuel f (g fgColor) (mapSurface g r2.1)
            ⟨p.x, p.y - 1⟩ (some (g (getPixelColor p s))) =
            some (mapSurface g r3.1, r3.2.map (fun e => (e.1, Option.map g e.2))) := by
          simpa using IH _ _ _ _ _ hr3
        have hIH4 : floodFillFuel f (g fgColor) (mapSurface g r3.1)
            ⟨p.x, p.y + 1⟩ (some (g (getPixelColor p s))) =
            some (mapSurface g r4.1, r4.2.map (fun e => (e.1, Option.map g e.2))) := by
          simpa using IH _ _ _ _ _ hr4
        rw [show getPixelColor p (mapSurface g s) = g (getPixelColor p s) from rfl]
        rw [hpaint, hIH1]
        simp only [Option.some_bind]
        rw [hIH2]
        simp only [Option.some_bind]
        rw [hIH3]
        simp only [Option.some_bind]
        rw [hIH4]
        simp only [Option.map_some', Option.some.injEq]
        simp [List.map_append]
    · rw [if_neg h1] at h
      rw [if_neg (fun hc => h1 (hdim.mp hc))]
      injection h with h'
      subst h'
      rfl

/-- A 5×5 surface with a 1-pixel border of color `X` and a 3×3 interior of
color `Y` (the surface of the flood-fill boundary-respect property). -/
def borderedSurface {C : Type} (X Y : C) : Surface C :=
  { width := 5, height := 5, pix := fun q =>
      if q.x = 0 ∨ q.x = 4 ∨ q.y = 0 ∨ q.y = 4 then X else Y }

/-- Three abstract colors presented as a palette over `Fin 3`. -/
def palette3 {C : Type} (X Y Z : C) : Fin 3 → C
  | 0 => X
  | 1 => Y
  | 2 => Z

/-- Two abstract colors presented as a palette over `Fin 2`. -/
def palette2 {C : Type} (Y X : C) : Fin 2 → C
  | 0 => Y
  | 1 => X

lemma palette3_injective {C : Type} {X Y Z : C} (hXY : X ≠ Y) (hXZ : X ≠ Z) (hYZ : Y ≠ Z) :
    Function.Injective (palette3 X Y Z) := by
  intro a b hab
  fin_cases a <;> fin_cases b <;>
    first
      | rfl
      | exact absurd hab hXY
      | exact absurd hab (Ne.symm hXY)
      | exact absurd hab hXZ
      | exact absurd hab (Ne.symm hXZ)
      | exact absurd hab hYZ
      | exact absurd hab (Ne.symm hYZ)

lemma palette2_injective {C : Type} {Y X : C} (hYX : Y ≠ X) :
    Function.Injective (palette2 Y X) := by
  intro a b hab
  fin_cases a <;> fin_cases b <;>
    first
      | rfl
      | exact absurd hab hYX
      | exact absurd hab (Ne.symm hYX)

lemma mapSurface_bordered {C K : Type} (g : K → C) (bC iC : K) :
    mapSurface g (borderedSurface bC iC) = borderedSurface (g bC) (g iC) :=
  surface_ext (mapSurface g (borderedSurface bC iC)) (borderedSurface (g bC) (g iC)) rfl rfl
    (fun q => apply_ite g (q.x = 0 ∨ q.x = 4 ∨ q.y = 0 ∨ q.y = 4) bC iC)

/-- Transfer of a concrete flood-fill run on an abstract-palette bordered
surface through an injective palette. -/
lemma c5_transfer {C K : Type} [DecidableEq C] [DecidableEq K] (g : K → C)
    (hg : Function.Injective g) (bC iC fgK : K)
    (r0 : Surface K × List (Point × Option K))
    (hrun : floodFillFuel 20 fgK (borderedSurface bC iC) ⟨2, 2⟩ none = some r0)
    (hfacts : ∀ a : Nat, a < 5 → ∀ b : Nat, b < 5 →
      r0.1.pix ⟨(a : Int), (b : Int)⟩ =
        if 1 ≤ a ∧ a ≤ 3 ∧ 1 ≤ b ∧ b ≤ 3 then fgK
        else (borderedSurface bC iC).pix ⟨(a : Int), (b : Int)⟩) :
    ∃ fuel r, floodFillFuel fuel (g fgK) (borderedSurface (g bC) (g iC)) ⟨2, 2⟩ none = some r ∧
      (∀ q : Point, 1 ≤ q.x ∧ q.x ≤ 3 ∧ 1 ≤ q.y ∧ q.y ≤ 3 → r.1.pix q = g fgK) ∧
      (∀ q : Point, ¬(1 ≤ q.x ∧ q.x ≤ 3 ∧ 1 ≤ q.y ∧ q.y ≤ 3) →
        r.1.pix q = (borderedSurface (g bC) (g iC)).pix q) := by
  have hmap := floodFillFuel_map hg 20 fgK (borderedSurface bC iC) ⟨2, 2⟩ none r0 hrun
  rw [show Option.map g (none : Option K) = none from rfl, mapSurface_bordered] at hmap
  refine ⟨20, _, hmap, ?_, ?_⟩
  · rintro q ⟨hq1, hq2, hq3, hq4⟩
    have hfi := hfacts q.x.toNat (by omega) q.y.toNat (by omega)
    rw [Int.toNat_of_nonneg (by omega), Int.toNat_of_nonneg (by omega)] at hfi
    rw [show (⟨q.x, q.y⟩ : Point) = q from Point.ext' _ _ rfl rfl] at hfi
    rw [if_pos (by omega)] at hfi
    show g (r0.1.pix q) = g fgK
    exact congrArg g hfi
  · intro q hq
    by_cases hin : inCanvas q (borderedSurface (g bC) (g iC))
    · obtain ⟨hx0, hx1, hy0, hy1⟩ := (show 0 ≤ q.x ∧ q.x < 5 ∧ 0 ≤ q.y ∧ q.y < 5 from hin)
      have hfi := hfacts q.x.toNat (by omega) q.y.toNat (by omega)
      rw [Int.toNat_of_nonneg (by omega), Int.toNat_of_nonneg (by omega)] at hfi
      rw [show (⟨q.x, q.y⟩ : Point) = q from Point.ext' _ _ rfl rfl] at hfi
      rw [if_neg (by omega)] at hfi
      show g (r0.1.pix q) = (borderedSurface (g bC) (g iC)).pix q
      rw [congrArg g hfi]
      exact congrFun (congrArg Surface.pix (mapSurface_bordered g bC iC)) q
    · have hpf := floodFillFuel_pixFrom _ _ _ _ _ _ hmap
      rcases hpf.2.2 q with h | ⟨hinq, _⟩
      · exact h
      · exact absurd hinq hin

/-- The concrete run behind C5: on the `Fin 3` bordered surface (border 0,
interior 1), filling the center with color 2 completes and repaints exactly
the interior. -/
lemma bordered_run3 :
    (floodFillFuel 20 (2 : Fin 3) (borderedSurface 0 1) ⟨2, 2⟩ none).map
      (fun (r : Surface (Fin 3) × List (Point × Option (Fin 3))) =>
        decide (∀ a : Nat, a < 5 → ∀ b : Nat, b < 5 →
        r.1.pix ⟨(a : Int), (b : Int)⟩ =
          if 1 ≤ a ∧ a ≤ 3 ∧ 1 ≤ b ∧ b ≤ 3 then (2 : Fin 3)
          else (borderedSurface (0 : Fin 3) 1).pix ⟨(a : Int), (b : Int)⟩)) = some true := by
  decide

/-- The concrete run behind C5 when the fill color coincides with the
border color: on the `Fin 2` bordered surface (border 1, interior 0),
filling the center with color 1. -/
lemma bordered_run2 :
    (floodFillFuel 20 (1 : Fin 2) (borderedSurface 1 0) ⟨2, 2⟩ none).map
      (fun (r : Surface (Fin 2) × List (Point × Option (Fin 2))) =>
        decide (∀ a : Nat, a < 5 → ∀ b : Nat, b < 5 →
        r.1.pix ⟨(a : Int), (b : Int)⟩ =
          if 1 ≤ a ∧ a ≤ 3 ∧ 1 ≤ b ∧ b ≤ 3 then (1 : Fin 2)
          else (borderedSurface (1 : Fin 2) 0).pix ⟨(a : Int), (b : Int)⟩)) = some true := by
  decide

/-- C5 counterexample to the claim as stated (universally in the colors):
with X = Y = 0 and Z = 1 the "border" does not bound the seeded region, the
completed fill repaints the whole surface, and the border pixel (0,0) ends
at Z = 1 instead of staying X = 0. -/
theorem c5_boundary_counterexample :
    (floodFillFuel 30 (1 : Fin 2) (borderedSurface 0 0) ⟨2, 2⟩ none).map
      (fun r => r.1.pix ⟨0, 0⟩) = some 1 ∧ (1 : Fin 2) ≠ 0 :=
  ⟨by decide, by decide⟩

/-- C5 (amended): provided the border color differs from the interior color
(X ≠ Y, so the border actually bounds the seeded region) and the fill color
differs from the interior color (Z ≠ Y, so the fill terminates),
flood-filling the center of the 5×5 bordered surface completes, repaints
exactly the 9 interior pixels to Z, and leaves every other pixel — the
border and every out-of-bounds point, which the fill silently ignores —
unchanged. -/
theorem c5_flood_fill_boundary_respect (C : Type) [DecidableEq C] (X Y Z : C)
    (hXY : X ≠ Y) (hZY : Z ≠ Y) :
    ∃ fuel r, floodFillFuel fuel Z (borderedSurface X Y) ⟨2, 2⟩ none = some r ∧
      (∀ q : Point, 1 ≤ q.x ∧ q.x ≤ 3 ∧ 1 ≤ q.y ∧ q.y ≤ 3 → r.1.pix q = Z) ∧
      (∀ q : Point, ¬(1 ≤ q.x ∧ q.x ≤ 3 ∧ 1 ≤ q.y ∧ q.y ≤ 3) →
        r.1.pix q = (borderedSurface X Y).pix q) := by
  by_cases hXZ : X = Z
  · obtain ⟨r0, hr0, hb⟩ := Option.map_eq_some'.mp bordered_run2
    have hfacts := of_decide_eq_true hb
    have h := c5_transfer (palette2 Y X) (palette2_injective (Ne.symm hXY)) 1 0 1 r0 hr0 hfacts
    rw [← hXZ]
    exact h
  · obtain ⟨r0, hr0, hb⟩ := Option.map_eq_some'.mp bordered_run3
    have hfacts := of_decide_eq_true hb
    exact c5_transfer (palette3 X Y Z) (palette3_injective hXY hXZ (Ne.symm hZY)) 0 1 2 r0 hr0
      hfacts

/-- Witness for C5 at concrete colors X = 0, Y = 1, Z = 2 over `Fin 3`. -/
theorem c5_flood_fill_boundary_respect_witness :
    (0 : Fin 3) ≠ 1 ∧ (2 : Fin 3) ≠ 1 ∧
    (∃ fuel r, floodFillFuel fuel (2 : Fin 3) (borderedSurface 0 1) ⟨2, 2⟩ none = some r ∧
      (∀ q : Point, 1 ≤ q.x ∧ q.x ≤ 3 ∧ 1 ≤ q.y ∧ q.y ≤ 3 → r.1.pix q = 2) ∧
      (∀ q : Point, ¬(1 ≤ q.x ∧ q.x ≤ 3 ∧ 1 ≤ q.y ∧ q.y ≤ 3) →
        r.1.pix q = (borderedSurface (0 : Fin 3) 1).pix q)) :=
  ⟨by decide, by decide,
    c5_flood_fill_boundary_respect (Fin 3) 0 1 2 (by decide) (by decide)⟩

/-- One brush-width line-segment drawing command. -/
structure Segment (C : Type) where
  p1 : Point
  p2 : Point
  color : C
  brush : Int
  deriving DecidableEq, Repr

/-- The two endpoints the Line tool passes to `drawLine` (tools.ts line 51):
`points[points.length > 1 ? 1 : 0]` and `points[Math.max(0, points.length - 2)]`
(truncated subtraction plays the role of `Math.max(0, ...)`). -/
def lineSegment (points : List Point) : Point × Point :=
  (points.getD (if 1 < points.length then 1 else 0) ⟨0, 0⟩,
    points.getD (points.length - 2) ⟨0, 0⟩)

/-- Modelled from the spec: `drawLine` lives in `src/utils/canvas.ts`, which
is not among the sources; per spec §4.2 it rasterizes one brush-width
segment between two endpoints, kept abstract here as an emitted `Segment`
command.  The Line tool (tools.ts 47-55) makes exactly one `drawLine` call,
with the current foreground color and brush size. -/
def lineUse {C : Type} (fgColor : C) (brushSize : Int) (points : List Point) :
    List (Segment C) :=
  [{ p1 := (lineSegment points).1, p2 := (lineSegment points).2, color := fgColor,
      brush := brushSize }]

/-- C2 counterexample: on the three-point sequence (0,0), (1,1), (2,2) the
segment's second endpoint is the second-to-last point (1,1), not the last
point (2,2) as claimed — the drawn segment degenerates to a dot at (1,1). -/
theorem c2_line_endpoints_counterexample :
    lineSegment [⟨0, 0⟩, ⟨1, 1⟩, ⟨2, 2⟩] = (⟨1, 1⟩, ⟨1, 1⟩) ∧
      (⟨1, 1⟩ : Point) ≠ ⟨2, 2⟩ :=
  ⟨by decide, by decide⟩

/-- C2 (amended): the Line tool draws exactly one brush-width segment; for
a sequence of two or more points its endpoints are the second point and the
second-to-last point (the second point of the reversed sequence); for a
single-point sequence it degenerates to a dot at that point. -/
theorem c2_line_draws_one_segment (C : Type) (fgColor : C) (brushSize : Int) :
    (∀ points : List Point, (lineUse fgColor brushSize points).length = 1) ∧
    (∀ (a b : Point) (rest : List Point),
      lineUse fgColor brushSize (a :: b :: rest) =
        [{ p1 := b, p2 := ((a :: b :: rest).reverse).getD 1 ⟨0, 0⟩, color := fgColor,
            brush := brushSize }]) ∧
    (∀ a : Point, lineUse fgColor brushSize [a] =
      [{ p1 := a, p2 := a, color := fgColor, brush := brushSize }]) := by
  refine ⟨fun _ => rfl, ?_, fun a => rfl⟩
  intro a b rest
  unfold lineUse lineSegment
  have hfst : (a :: b :: rest).getD (if 1 < (a :: b :: rest).length then 1 else 0) ⟨0, 0⟩ = b := by
    rw [if_pos (by simp)]
    rfl
  have hlen2 : (a :: b :: rest).length - 2 = rest.length := by simp
  have hsnd : (a :: b :: rest).getD ((a :: b :: rest).length - 2) ⟨0, 0⟩ =
      ((a :: b :: rest).reverse).getD 1 ⟨0, 0⟩ := by
    rw [hlen2]
    rw [List.getD_eq_getElem _ _ (by simp only [List.length_cons]; omega),
      List.getD_eq_getElem _ _ (by simp only [List.length_reverse, List.length_cons]; omega)]
    rw [List.getElem_reverse]
    congr 1
  rw [hfst, hsnd]

/-- An RGBA sample as returned by `getImageData` (one byte per channel). -/
structure RGBA where
  r : Nat
  g : Nat
  b : Nat
  a : Nat
  deriving DecidableEq, Repr

/-- Modelled from the spec: the shared drawing configuration store
(`src/state/toolboxState.ts`, not among the sources) per spec §3 and §6:
foreground and background colors in `#rrggbbaa` text form and a brush
size; the eyedropper is the only writer, and only of `fgColor`. -/
structure ToolboxState where
  fgColor : String
  bgColor : String
  brushSize : Nat
  deriving DecidableEq, Repr

/-- `i.toString(16).padStart(2, "0")` of tools.ts line 124 for one channel
value: lowercase hexadecimal, left-padded with zeros to two digits. -/
def toHexByte (n : Nat) : String :=
  let s := String.mk (Nat.toDigits 16 n)
  if s.length < 2 then "0" ++ s else s

/-- Modelled from the spec: `ctx.getImageData(x, y, 1, 1)` of tools.ts line
122 — the RGBA bytes at the last point of the sequence; a browser canvas
returns transparent black for out-of-bounds reads. -/
def sampledPixel (points : List Point) (canvas : Surface RGBA) : RGBA :=
  if inCanvas (points.getLastD ⟨0, 0⟩) canvas then canvas.pix (points.getLastD ⟨0, 0⟩)
  else ⟨0, 0, 0, 0⟩

/-- The Eyedropper tool (tools.ts lines 118-134): sample the last point,
hex-encode the four channels, do nothing when the encoding is
`"00000000"`, otherwise request the foreground color be set to the
`#rrggbbaa` encoding. -/
def eyedropperUse (st : ToolboxState) (points : List Point) (canvas : Surface RGBA) :
    ToolboxState :=
  let px := sampledPixel points canvas
  let color := toHexByte px.r ++ toHexByte px.g ++ toHexByte px.b ++ toHexByte px.a
  if color = "00000000" then st else { st with fgColor := "#" ++ color }

lemma toHexByte_facts : ∀ n : Nat, n < 256 →
    (toHexByte n).data.length = 2 ∧ ((toHexByte n).data = ['0', '0'] ↔ n = 0) := by
  decide

lemma hex4_eq_zero {r g b a : Nat} (hr : r < 256) (hg : g < 256) (hb : b < 256) (ha : a < 256)
    (h : toHexByte r ++ toHexByte g ++ toHexByte b ++ toHexByte a = "00000000") :
    r = 0 ∧ g = 0 ∧ b = 0 ∧ a = 0 := by
  have hd := congrArg String.data h
  simp only [String.data_append] at hd
  rw [show (['0', '0', '0', '0', '0', '0', '0', '0'] : List Char) =
    ['0', '0'] ++ ['0', '0'] ++ ['0', '0'] ++ ['0', '0'] from rfl] at hd
  obtain ⟨h123, h4⟩ := List.append_inj hd (by
    simp only [List.length_append, (toHexByte_facts r hr).1, (toHexByte_facts g hg).1,
      (toHexByte_facts b hb).1]
    rfl)
  obtain ⟨h12, h3⟩ := List.append_inj h123 (by
    simp only [List.length_append, (toHexByte_facts r hr).1, (toHexByte_facts g hg).1]
    rfl)
  obtain ⟨h1, h2⟩ := List.append_inj h12 (by
    simp only [(toHexByte_facts r hr).1]
    rfl)
  exact ⟨(toHexByte_facts r hr).2.mp h1, (toHexByte_facts g hg).2.mp h2,
    (toHexByte_facts b hb).2.mp h3, (toHexByte_facts a ha).2.mp h4⟩

/-- C6 counterexample: a sample that is fully transparent (alpha 0) but not
transparent black — channels (1,0,0,0) — does change the foreground color,
to "#01000000": only the all-four-channels-zero sample is ignored. -/
theorem c6_eyedropper_counterexample :
    (⟨1, 0, 0, 0⟩ : RGBA).a = 0 ∧
    eyedropperUse ⟨"#112233ff", "#00000000", 1⟩ [⟨0, 0⟩]
        { width := 1, height := 1, pix := fun _ => ⟨1, 0, 0, 0⟩ } =
      ⟨"#01000000", "#00000000", 1⟩ ∧
    ("#01000000" : String) ≠ "#112233ff" :=
  ⟨rfl, by decide, by decide⟩

/-- C6 (amended): the Eyedropper samples the pixel at the last point of the
sequence; if the sample is fully transparent black (all four channels zero)
the drawing configuration is left unchanged, and otherwise (for byte-valued
channels) the foreground color is set to the sample encoded as `#rrggbbaa`
with two zero-padded lowercase hex digits per channel. -/
theorem c6_eyedropper_transparent_noop (st : ToolboxState) (points : List Point)
    (canvas : Surface RGBA) :
    (sampledPixel points canvas = ⟨0, 0, 0, 0⟩ → eyedropperUse st points canvas = st) ∧
    (sampledPixel points canvas ≠ ⟨0, 0, 0, 0⟩ →
      (sampledPixel points canvas).r < 256 → (sampledPixel points canvas).g < 256 →
      (sampledPixel points canvas).b < 256 → (sampledPixel points canvas).a < 256 →
      eyedropperUse st points canvas =
        { st with fgColor := "#" ++ (toHexByte (sampledPixel points canvas).r ++
            toHexByte (sampledPixel points canvas).g ++
            toHexByte (sampledPixel points canvas).b ++
            toHexByte (sampledPixel points canvas).a) }) := by
  constructor
  · intro h
    unfold eyedropperUse
    rw [h]
    rfl
  · intro hne hr hg hb ha
    unfold eyedropperUse
    rw [if_neg]
    intro hzero
    obtain ⟨h1, h2, h3, h4⟩ := hex4_eq_zero hr hg hb ha hzero
    apply hne
    cases hpx : sampledPixel points canvas
    rw [hpx] at h1 h2 h3 h4
    simp only at h1 h2 h3 h4
    simp [h1, h2, h3, h4]

/-- Witness for C6: a transparent-black sample (no-op) and an opaque red
sample (foreground set to "#ff0000ff"). -/
theorem c6_eyedropper_transparent_noop_witness :
    (sampledPixel [⟨0, 0⟩] { width := 1, height := 1, pix := fun _ => ⟨0, 0, 0, 0⟩ } =
      ⟨0, 0, 0, 0⟩) ∧
    eyedropperUse ⟨"#112233ff", "#00000000", 1⟩ [⟨0, 0⟩]
        { width := 1, height := 1, pix := fun _ => ⟨0, 0, 0, 0⟩ } =
      ⟨"#112233ff", "#00000000", 1⟩ ∧
    (sampledPixel [⟨0, 0⟩] { width := 1, height := 1, pix := fun _ => ⟨255, 0, 0, 255⟩ } ≠
      ⟨0, 0, 0, 0⟩) ∧
    eyedropperUse ⟨"#112233ff", "#00000000", 1⟩ [⟨0, 0⟩]
        { width := 1, height := 1, pix := fun _ => ⟨255, 0, 0, 255⟩ } =
      { (⟨"#112233ff", "#00000000", 1⟩ : ToolboxState) with fgColor := "#" ++
          (toHexByte (sampledPixel [⟨0, 0⟩]
              { width := 1, height := 1, pix := fun _ => ⟨255, 0, 0, 255⟩ }).r ++
            toHexByte (sampledPixel [⟨0, 0⟩]
              { width := 1, height := 1, pix := fun _ => ⟨255, 0, 0, 255⟩ }).g ++
            toHexByte (sampledPixel [⟨0, 0⟩]
              { width := 1, height := 1, pix := fun _ => ⟨255, 0, 0, 255⟩ }).b ++
            toHexByte (sampledPixel [⟨0, 0⟩]
              { width := 1, height := 1, pix := fun _ => ⟨255, 0, 0, 255⟩ }).a) } :=
  ⟨by decide,
    (c6_eyedropper_transparent_noop ⟨"#112233ff", "#00000000", 1⟩ [⟨0, 0⟩]
      { width := 1, height := 1, pix := fun _ => ⟨0, 0, 0, 0⟩ }).1 (by decide),
    by decide,
    (c6_eyedropper_transparent_noop ⟨"#112233ff", "#00000000", 1⟩ [⟨0, 0⟩]
      { width := 1, height := 1, pix := fun _ => ⟨255, 0, 0, 255⟩ }).2 (by decide) (by decide)
      (by decide) (by decide) (by decide)⟩

/-- Modelled after `ctx.fillRect(x, y, w, h)` per spec §6: fills the
axis-aligned rectangle spanned by `(x, y)` and `(x + w, y + h)` — negative
`w`/`h` extend in the negative direction — clipped to the canvas. -/
def fillRectOp {C : Type} (x y w h : Int) (color : C) (s : Surface C) : Surface C :=
  { s with pix := fun q =>
      if inCanvas q s ∧ min x (x + w) ≤ q.x ∧ q.x < max x (x + w) ∧
          min y (y + h) ≤ q.y ∧ q.y < max y (y + h) then color
      else s.pix q }

/-- `getBoundingBoxIncludingBrush` (tools.ts lines 173-184): min/max over
the first and last points and their brush-inflated (toward negative x/y)
copies. -/
def getBoundingBoxIncludingBrush (points : List Point) (brushSize : Int) : Point × Point :=
  let startPoint := points.headD ⟨0, 0⟩
  let endPoint := points.getLastD ⟨0, 0⟩
  let startX := min (min startPoint.x (startPoint.x - brushSize + 1))
    (min endPoint.x (endPoint.x - brushSize + 1))
  let endX := max (max startPoint.x (startPoint.x - brushSize + 1))
    (max endPoint.x (endPoint.x - brushSize + 1))
  let startY := min (min startPoint.y (startPoint.y - brushSize + 1))
    (min endPoint.y (endPoint.y - brushSize + 1))
  let endY := max (max startPoint.y (startPoint.y - brushSize + 1))
    (max endPoint.y (endPoint.y - brushSize + 1))
  (⟨startX, startY⟩, ⟨endX, endY⟩)

/-- The Rectangle tool (tools.ts lines 57-79): background fill of the whole
brush-inflated box, then four foreground edge strips — the bottom and right
strips drawn as negative-extent rectangles anchored at
`(end.x + 1, end.y + 1)`. -/
def rectangleUse {C : Type} (fgColor bgColor : C) (brushSize : Int) (points : List Point)
    (canvas : Surface C) : Surface C :=
  let bb := getBoundingBoxIncludingBrush points brushSize
  let width := bb.2.x - bb.1.x + 1
  let height := bb.2.y - bb.1.y + 1
  fillRectOp (bb.2.x + 1) (bb.2.y + 1) (-brushSize) (-height) fgColor
    (fillRectOp bb.1.x bb.1.y brushSize height fgColor
      (fillRectOp (bb.2.x + 1) (bb.2.y + 1) (-width) (-brushSize) fgColor
        (fillRectOp bb.1.x bb.1.y width brushSize fgColor
          (fillRectOp bb.1.x bb.1.y width height bgColor canvas))))

/-- C7: for points (2,2) and (10,10) with brush size 1 on a canvas at least
11×11, the Rectangle tool paints the one-pixel frame of the box
x,y ∈ [2,10] in the foreground color, its interior in the background color
(the later frame strips paint over the earlier background fill), and leaves
every pixel outside the box unchanged. -/
theorem c7_rectangle_frame_and_fill (C : Type) (s : Surface C) (fgColor bgColor : C)
    (hW : 11 ≤ s.width) (hH : 11 ≤ s.height) (q : Point) :
    ((2 ≤ q.x ∧ q.x ≤ 10 ∧ 2 ≤ q.y ∧ q.y ≤ 10 ∧
        (q.x = 2 ∨ q.x = 10 ∨ q.y = 2 ∨ q.y = 10)) →
      (rectangleUse fgColor bgColor 1 [⟨2, 2⟩, ⟨10, 10⟩] s).pix q = fgColor) ∧
    ((3 ≤ q.x ∧ q.x ≤ 9 ∧ 3 ≤ q.y ∧ q.y ≤ 9) →
      (rectangleUse fgColor bgColor 1 [⟨2, 2⟩, ⟨10, 10⟩] s).pix q = bgColor) ∧
    ((q.x < 2 ∨ 10 < q.x ∨ q.y < 2 ∨ 10 < q.y) →
      (rectangleUse fgColor bgColor 1 [⟨2, 2⟩, ⟨10, 10⟩] s).pix q = s.pix q) := by
  refine ⟨?_, ?_, ?_⟩ <;>
    · intro hq
      simp only [rectangleUse, getBoundingBoxIncludingBrush, fillRectOp, inCanvas,
        List.headD, List.getLastD]
      norm_num
      split_ifs <;> first | rfl | omega

/-- Witness for C7 at the pixel (5,5) of a 16×16 surface. -/
theorem c7_rectangle_frame_and_fill_witness :
    11 ≤ ({ width := 16, height := 16, pix := fun _ => 0 } : Surface (Fin 3)).width ∧
    11 ≤ ({ width := 16, height := 16, pix := fun _ => 0 } : Surface (Fin 3)).height ∧
    (((2 ≤ (5 : Int) ∧ (5 : Int) ≤ 10 ∧ 2 ≤ (5 : Int) ∧ (5 : Int) ≤ 10 ∧
        ((5 : Int) = 2 ∨ (5 : Int) = 10 ∨ (5 : Int) = 2 ∨ (5 : Int) = 10)) →
      (rectangleUse (1 : Fin 3) 2 1 [⟨2, 2⟩, ⟨10, 10⟩]
        { width := 16, height := 16, pix := fun _ => 0 }).pix ⟨5, 5⟩ = 1) ∧
    ((3 ≤ (5 : Int) ∧ (5 : Int) ≤ 9 ∧ 3 ≤ (5 : Int) ∧ (5 : Int) ≤ 9) →
      (rectangleUse (1 : Fin 3) 2 1 [⟨2, 2⟩, ⟨10, 10⟩]
        { width := 16, height := 16, pix := fun _ => 0 }).pix ⟨5, 5⟩ = 2) ∧
    (((5 : Int) < 2 ∨ 10 < (5 : Int) ∨ (5 : Int) < 2 ∨ 10 < (5 : Int)) →
      (rectangleUse (1 : Fin 3) 2 1 [⟨2, 2⟩, ⟨10, 10⟩]
        { width := 16, height := 16, pix := fun _ => 0 }).pix ⟨5, 5⟩ =
        ({ width := 16, height := 16, pix := fun _ => 0 } : Surface (Fin 3)).pix ⟨5, 5⟩)) :=
  ⟨by decide, by decide,
    c7_rectangle_frame_and_fill (Fin 3) { width := 16, height := 16, pix := fun _ => 0 }
      1 2 (by decide) (by decide) ⟨5, 5⟩⟩

/-- C10: every pixel any of the Rectangle tool's five fillRect calls can
touch — the background fill and the four foreground strips, including the
two negative-extent strips anchored at `(end.x + 1, end.y + 1)` — lies
within the brush-inflated bounding box `[start, end]`, so pixels outside
that box are unchanged. -/
theorem c10_rectangle_stays_in_bounding_box (C : Type) (s : Surface C) (fgColor bgColor : C)
    (brushSize : Int) (points : List Point) (q : Point) (hbrush : 1 ≤ brushSize)
    (hq : q.x < (getBoundingBoxIncludingBrush points brushSize).1.x ∨
      (getBoundingBoxIncludingBrush points brushSize).2.x < q.x ∨
      q.y < (getBoundingBoxIncludingBrush points brushSize).1.y ∨
      (getBoundingBoxIncludingBrush points brushSize).2.y < q.y) :
    (rectangleUse fgColor bgColor brushSize points s).pix q = s.pix q := by
  simp only [getBoundingBoxIncludingBrush] at hq
  simp only [rectangleUse, getBoundingBoxIncludingBrush, fillRectOp, inCanvas]
  split_ifs <;> first | rfl | omega

/-- Witness for C10 at the pixel (0,0), outside the box of (2,2)-(10,10). -/
theorem c10_rectangle_stays_in_bounding_box_witness :
    (1 : Int) ≤ 1 ∧
    ((0 : Int) < (getBoundingBoxIncludingBrush [⟨2, 2⟩, ⟨10, 10⟩] 1).1.x ∨
      (getBoundingBoxIncludingBrush [⟨2, 2⟩, ⟨10, 10⟩] 1).2.x < 0 ∨
      (0 : Int) < (getBoundingBoxIncludingBrush [⟨2, 2⟩, ⟨10, 10⟩] 1).1.y ∨
      (getBoundingBoxIncludingBrush [⟨2, 2⟩, ⟨10, 10⟩] 1).2.y < 0) ∧
    (rectangleUse (1 : Fin 3) 2 1 [⟨2, 2⟩, ⟨10, 10⟩]
        { width := 16, height := 16, pix := fun _ => 0 }).pix ⟨0, 0⟩ =
      ({ width := 16, height := 16, pix := fun _ => 0 } : Surface (Fin 3)).pix ⟨0, 0⟩ :=
  ⟨by decide, by decide,
    c10_rectangle_stays_in_bounding_box (Fin 3) { width := 16, height := 16, pix := fun _ => 0 }
      1 2 1 [⟨2, 2⟩, ⟨10, 10⟩] ⟨0, 0⟩ (by decide) (by decide)⟩

/-- The plain bounding box of a point sequence (`getBoundingBox`, tools.ts
lines 186-197): min/max over the first and last points only (the source
lists each coordinate twice; the min/max is the same). -/
structure Box where
  x0 : Int
  y0 : Int
  x1 : Int
  y1 : Int

def getBoundingBox (points : List Point) : Box :=
  let startPoint := points.headD ⟨0, 0⟩
  let endPoint := points.getLastD ⟨0, 0⟩
  { x0 := min startPoint.x endPoint.x, y0 := min startPoint.y endPoint.y,
    x1 := max startPoint.x endPoint.x, y1 := max startPoint.y endPoint.y }

/-- `xC = Math.round((x0 + x1) / 2)` (tools.ts line 202): JS `Math.round`
rounds half toward +∞, i.e. `⌊z + 1/2⌋`, which on integer `x0 + x1` is
`⌊(x0 + x1 + 1) / 2⌋`. -/
def ellipseXC (points : List Point) : Int :=
  ((getBoundingBox points).x0 + (getBoundingBox points).x1 + 1).fdiv 2

def ellipseYC (points : List Point) : Int :=
  ((getBoundingBox points).y0 + (getBoundingBox points).y1 + 1).fdiv 2

/-- `evenX = (x0 + x1) % 2` (tools.ts line 204): the JS `%` is the
truncating remainder. -/
def ellipseEvenX (points : List Point) : Int :=
  Int.tmod ((getBoundingBox points).x0 + (getBoundingBox points).x1) 2

def ellipseEvenY (points : List Point) : Int :=
  Int.tmod ((getBoundingBox points).y0 + (getBoundingBox points).y1) 2

def ellipseRX (points : List Point) : Int := (getBoundingBox points).x1 - ellipseXC points

def ellipseRY (points : List Point) : Int := (getBoundingBox points).y1 - ellipseYC points

/-- The pixel set one pass of `ellipse` (tools.ts lines 199-238) paints.
The per-pixel annulus test (lines 221-229) computes with `Math.atan`,
`Math.sqrt`, `Math.cos`, `Math.sin` over floating-point numbers; it is kept
abstract here as a predicate `test` on the quadrant coordinates, evaluated
once per quadrant point — as in the source, where the one evaluation
decides all four mirrored pixels (lines 231-234), which is all this claim
depends on.  A pixel is painted when some accepted quadrant point `(x, y)`
with `0 ≤ x ≤ rX`, `0 ≤ y ≤ rY` maps to it through one of the four
mirror images. -/
def ellipsePainted (points : List Point) (test : Nat → Nat → Bool) (q : Point) : Prop :=
  ∃ x y : Nat, (x : Int) ≤ ellipseRX points ∧ (y : Int) ≤ ellipseRY points ∧
    test x y = true ∧
    (q = ⟨ellipseXC points + x, ellipseYC points + y⟩ ∨
      q = ⟨ellipseXC points - x - ellipseEvenX points, ellipseYC points + y⟩ ∨
      q = ⟨ellipseXC points + x, ellipseYC points - y - ellipseEvenY points⟩ ∨
      q = ⟨ellipseXC points - x - ellipseEvenX points,
        ellipseYC points - y - ellipseEvenY points⟩)

/-- The pixels painted by the Ellipse tool (tools.ts lines 81-103): the
union of the background fill pass and the foreground stroke pass, each an
`ellipse` call with its own per-pixel test. -/
def ellipseToolPainted (points : List Point) (fillTest strokeTest : Nat → Nat → Bool)
    (q : Point) : Prop :=
  ellipsePainted points fillTest q ∨ ellipsePainted points strokeTest q

/-- Horizontal mirroring about the parity-corrected center. -/
def mirrorX (points : List Point) (q : Point) : Point :=
  ⟨2 * ellipseXC points - ellipseEvenX points - q.x, q.y⟩

/-- Vertical mirroring about the parity-corrected center. -/
def mirrorY (points : List Point) (q : Point) : Point :=
  ⟨q.x, 2 * ellipseYC points - ellipseEvenY points - q.y⟩

lemma ellipsePainted_mirrorX_of (points : List Point) (test : Nat → Nat → Bool) (q : Point)
    (h : ellipsePainted points test q) : ellipsePainted points test (mirrorX points q) := by
  obtain ⟨x, y, hx, hy, ht, hq⟩ := h
  refine ⟨x, y, hx, hy, ht, ?_⟩
  rcases hq with h | h | h | h <;> subst h <;> unfold mirrorX <;> dsimp only
  · exact Or.inr (Or.inl (Point.ext' _ _ (by dsimp only; omega) rfl))
  · exact Or.inl (Point.ext' _ _ (by dsimp only; omega) rfl)
  · exact Or.inr (Or.inr (Or.inr (Point.ext' _ _ (by dsimp only; omega) rfl)))
  · exact Or.inr (Or.inr (Or.inl (Point.ext' _ _ (by dsimp only; omega) rfl)))

lemma ellipsePainted_mirrorY_of (points : List Point) (test : Nat → Nat → Bool) (q : Point)
    (h : ellipsePainted points test q) : ellipsePainted points test (mirrorY points q) := by
  obtain ⟨x, y, hx, hy, ht, hq⟩ := h
  refine ⟨x, y, hx, hy, ht, ?_⟩
  rcases hq with h | h | h | h <;> subst h <;> unfold mirrorY <;> dsimp only
  · exact Or.inr (Or.inr (Or.inl (Point.ext' _ _ rfl (by dsimp only; omega))))
  · exact Or.inr (Or.inr (Or.inr (Point.ext' _ _ rfl (by dsimp only; omega))))
  · exact Or.inl (Point.ext' _ _ rfl (by dsimp only; omega))
  · exact Or.inr (Or.inl (Point.ext' _ _ rfl (by dsimp only; omega)))

lemma mirrorX_involutive (points : List Point) (q : Point) :
    mirrorX points (mirrorX points q) = q := by
  unfold mirrorX
  exact Point.ext' _ _ (by dsimp only; omega) rfl

lemma mirrorY_involutive (points : List Point) (q : Point) :
    mirrorY points (mirrorY points q) = q := by
  unfold mirrorY
  exact Point.ext' _ _ rfl (by dsimp only; omega)

/-- C8: for every point sequence and every pair of per-pixel tests (hence
every brush size, which only enters through the stroke pass's test), the
set of pixels painted by the Ellipse tool — fill pass and stroke pass
together — is invariant under horizontal mirroring
x ↦ 2·xC − evenX − x and under vertical mirroring y ↦ 2·yC − evenY − y
about the parity-corrected center. -/
theorem c8_ellipse_mirror_symmetry (points : List Point)
    (fillTest strokeTest : Nat → Nat → Bool) (q : Point) :
    (ellipseToolPainted points fillTest strokeTest (mirrorX points q) ↔
      ellipseToolPainted points fillTest strokeTest q) ∧
    (ellipseToolPainted points fillTest strokeTest (mirrorY points q) ↔
      ellipseToolPainted points fillTest strokeTest q) := by
  constructor
  · constructor
    · intro h
      rcases h with h | h
      · exact Or.inl (mirrorX_involutive points q ▸ ellipsePainted_mirrorX_of points fillTest _ h)
      · exact Or.inr
          (mirrorX_involutive points q ▸ ellipsePainted_mirrorX_of points strokeTest _ h)
    · intro h
      rcases h with h | h
      · exact Or.inl (ellipsePainted_mirrorX_of points fillTest q h)
      · exact Or.inr (ellipsePainted_mirrorX_of points strokeTest q h)
  · constructor
    · intro h
      rcases h with h | h
      · exact Or.inl (mirrorY_involutive points q ▸ ellipsePainted_mirrorY_of points fillTest _ h)
      · exact Or.inr
          (mirrorY_involutive points q ▸ ellipsePainted_mirrorY_of points strokeTest _ h)
    · intro h
      rcases h with h | h
      · exact Or.inl (ellipsePainted_mirrorY_of points fillTest q h)
      · exact Or.inr (ellipsePainted_mirrorY_of points strokeTest q h)

/-- The Move tool (tools.ts lines 31-45), with canvas semantics modelled
per spec §4.6/§6: clear the whole working canvas, then `drawImage` the
original canvas translated by the net displacement between the first and
the last point of the sequence.  Pixels are `Option C`: `none` is the
transparent state `clearRect` leaves behind; drawing the original onto the
fully cleared canvas (source-over onto transparent) copies its pixel values
wherever the translated source overlaps the canvas, clipped to the canvas
bounds. -/
def moveUse {C : Type} (points : List Point)
    (workingCanvas originalCanvas : Surface (Option C)) : Surface (Option C) :=
  let startPoint := points.headD ⟨0, 0⟩
  let endPoint := points.getLastD ⟨0, 0⟩
  let xOffset := endPoint.x - startPoint.x
  let yOffset := endPoint.y - startPoint.y
  { workingCanvas with pix := fun q =>
      if (inCanvas q workingCanvas) then
        if (inCanvas ⟨q.x - xOffset, q.y - yOffset⟩ originalCanvas) then
          originalCanvas.pix ⟨q.x - xOffset, q.y - yOffset⟩
        else none
      else workingCanvas.pix q }

/-- The net displacement of one interaction's point sequence (tools.ts
lines 35-36). -/
def netOffset (points : List Point) : Int × Int :=
  ((points.getLastD ⟨0, 0⟩).x - (points.headD ⟨0, 0⟩).x,
    (points.getLastD ⟨0, 0⟩).y - (points.headD ⟨0, 0⟩).y)

lemma moveUse_pix {C : Type} (points : List Point)
    (workingCanvas originalCanvas : Surface (Option C)) (q : Point)
    (hq : inCanvas q workingCanvas) :
    (moveUse points workingCanvas originalCanvas).pix q =
      if (inCanvas (⟨q.x - (netOffset points).1, q.y - (netOffset points).2⟩ : Point)
          originalCanvas) then
        originalCanvas.pix ⟨q.x - (netOffset points).1, q.y - (netOffset points).2⟩
      else none := by
  simp only [moveUse, netOffset]
  rw [if_pos hq]

/-- C9: moving by the net displacement (dx, dy) and then — with the first
interaction's working surface as the second interaction's original — by
(-dx, -dy) reproduces the original surface at every pixel whose content
survived the intermediate step, i.e. whose translated position
(x + dx, y + dy) was still on the surface. -/
theorem c9_move_round_trip (C : Type)
    (originalCanvas workingCanvas workingCanvas' : Surface (Option C)) (ps ps' : List Point)
    (hw1 : workingCanvas.width = originalCanvas.width)
    (hh1 : workingCanvas.height = originalCanvas.height)
    (hw2 : workingCanvas'.width = originalCanvas.width)
    (hh2 : workingCanvas'.height = originalCanvas.height)
    (hoff : netOffset ps' = (-(netOffset ps).1, -(netOffset ps).2)) (q : Point)
    (hq : inCanvas q originalCanvas)
    (hmid : inCanvas ⟨q.x + (netOffset ps).1, q.y + (netOffset ps).2⟩ originalCanvas) :
    (moveUse ps' workingCanvas' (moveUse ps workingCanvas originalCanvas)).pix q =
      originalCanvas.pix q := by
  have hq' : inCanvas q workingCanvas' :=
    (inCanvas_of_dims q originalCanvas workingCanvas' hw2 hh2).mpr hq
  have hinW1 : inCanvas (⟨q.x + (netOffset ps).1, q.y + (netOffset ps).2⟩ : Point)
      (moveUse ps workingCanvas originalCanvas) :=
    (inCanvas_of_dims _ originalCanvas (moveUse ps workingCanvas originalCanvas)
      hw1 hh1).mpr hmid
  rw [moveUse_pix ps' workingCanvas' (moveUse ps workingCanvas originalCanvas) q hq']
  rw [hoff]
  dsimp only
  rw [sub_neg_eq_add, sub_neg_eq_add]
  rw [if_pos hinW1]
  rw [moveUse_pix ps workingCanvas originalCanvas
    ⟨q.x + (netOffset ps).1, q.y + (netOffset ps).2⟩
    ((inCanvas_of_dims _ originalCanvas workingCanvas hw1 hh1).mpr hmid)]
  dsimp only
  rw [add_sub_cancel_right, add_sub_cancel_right]
  rw [show (⟨q.x, q.y⟩ : Point) = q from rfl]
  rw [if_pos hq]

/-- A 3×3 fully painted surface for the C9 witness. -/
def tinyCanvas : Surface (Option (Fin 1)) := { width := 3, height := 3, pix := fun _ => some 0 }

/-- Witness for C9: a 3×3 surface moved right by one pixel and back. -/
theorem c9_move_round_trip_witness :
    tinyCanvas.width = 3 ∧
    netOffset [⟨1, 0⟩, ⟨0, 0⟩] =
      (-(netOffset [⟨0, 0⟩, ⟨1, 0⟩]).1, -(netOffset [⟨0, 0⟩, ⟨1, 0⟩]).2) ∧
    inCanvas (⟨0, 0⟩ : Point) tinyCanvas ∧
    inCanvas (⟨(0 : Int) + (netOffset [⟨0, 0⟩, ⟨1, 0⟩]).1,
        (0 : Int) + (netOffset [⟨0, 0⟩, ⟨1, 0⟩]).2⟩ : Point) tinyCanvas ∧
    (moveUse [⟨1, 0⟩, ⟨0, 0⟩] tinyCanvas
        (moveUse [⟨0, 0⟩, ⟨1, 0⟩] tinyCanvas tinyCanvas)).pix ⟨0, 0⟩ =
      tinyCanvas.pix ⟨0, 0⟩ :=
  ⟨rfl, by decide, by decide, by decide,
    c9_move_round_trip (Fin 1) tinyCanvas tinyCanvas tinyCanvas
      [⟨0, 0⟩, ⟨1, 0⟩] [⟨1, 0⟩, ⟨0, 0⟩] rfl rfl rfl rfl (by decide) ⟨0, 0⟩ (by decide)
      (by decide)⟩
